import Mathlib

/-!
Shallow embedding of the rice-price dashboard's data pipeline
(`clean_price` and `load_data` from `main.py`) together with proofs of the
spec's testable properties.

Cells of the raw table are modelled by `Cell`: a string, a Python integer,
a Python float (classified as finite / NaN / ±infinity; finite floats are
carried as exact rationals, which is all `int()`-truncation needs), or the
pandas missing marker `pd.NA` (which also stands for `None`).  Exceptions
raised by Python code are modelled by the `Except PyExc` monad; `clean_price`
catches exactly `ValueError` and `TypeError`, as the source does.
-/

inductive PyExc where
  | valueError
  | typeError
  | overflowError
deriving DecidableEq

deriving instance DecidableEq for Except

inductive PFloat where
  | fin (q : Rat)
  | nan
  | inf
  | ninf
deriving DecidableEq

inductive Cell where
  | str (s : String)
  | intV (n : Int)
  | floatV (x : PFloat)
  | na
deriving DecidableEq

/-- Characters stripped by Python's `str.strip()` (whitespace). -/
def isWS (c : Char) : Bool := c.isWhitespace

/-- Strip whitespace from both ends of a character list. -/
def stripChars (l : List Char) : List Char :=
  ((l.dropWhile isWS).reverse.dropWhile isWS).reverse

/-- Models Python `str.strip()`. -/
def stripStr (s : String) : String := ⟨stripChars s.data⟩

/-- Models Python `s.replace(",", "")`: every comma is removed. -/
def removeCommas (s : String) : String := ⟨s.data.filter (fun c => c != ',')⟩

/-- Numeric value of a decimal digit character. -/
def digitVal (c : Char) : Nat := c.toNat - 48

/-- Value of a list of decimal digit characters (most significant first). -/
def digitsVal (l : List Char) : Nat := l.foldl (fun a c => 10 * a + digitVal c) 0

/-- Digit part of a Python integer literal after the first digit: decimal
digits with single underscores allowed between digits (Python 3 grouping). -/
def digitPartGo (acc : Nat) : List Char → Option Nat
  | [] => some acc
  | c :: rest =>
    if c.isDigit then digitPartGo (10 * acc + digitVal c) rest
    else if c = '_' then
      match rest with
      | c2 :: r2 => if c2.isDigit then digitPartGo (10 * (10 * acc + digitVal c2)) r2 else none
      | [] => none
    else none

/-- Digit part of a Python integer literal: at least one digit, underscores
only between digits. -/
def pyDigitPart : List Char → Option Nat
  | [] => none
  | c :: rest => if c.isDigit then digitPartGo (digitVal c) rest else none

/-- Sign-and-digit part of a Python integer literal (already stripped). -/
def pyStrToIntL : List Char → Option Int
  | [] => none
  | c :: r =>
    if c = '-' then (pyDigitPart r).map (fun n => -(n : Int))
    else if c = '+' then (pyDigitPart r).map (fun n => (n : Int))
    else (pyDigitPart (c :: r)).map (fun n => (n : Int))

/-- Models Python `int(s)` for an (ASCII) string: optional surrounding
whitespace, optional sign, then a digit part.  `none` models `ValueError`. -/
def pyStrToInt (s : String) : Option Int := pyStrToIntL (stripChars s.data)

/-- Truncation toward zero, the behaviour of Python `int()` on a finite float
(T-division of the numerator by the positive denominator). -/
def pytrunc (q : Rat) : Int := Int.tdiv q.num q.den

/-- Models the Python builtin `int(x)` on a cell value.  On a NaN float it
raises `ValueError`, on an infinite float `OverflowError`, on `pd.NA`
`TypeError`. -/
def int_of (c : Cell) : Except PyExc Int :=
  match c with
  | .str s =>
    match pyStrToInt s with
    | some n => .ok n
    | none => .error .valueError
  | .intV n => .ok n
  | .floatV (.fin q) => .ok (pytrunc q)
  | .floatV .nan => .error .valueError
  | .floatV .inf => .error .overflowError
  | .floatV .ninf => .error .overflowError
  | .na => .error .typeError

/-- The `try: return int(price) except (ValueError, TypeError): return pd.NA`
block of `clean_price`: exactly those two exception classes are absorbed into
the missing marker; any other exception propagates. -/
def try_int (c : Cell) : Except PyExc (Option Int) :=
  match int_of c with
  | .ok n => .ok (some n)
  | .error .valueError => .ok none
  | .error .typeError => .ok none
  | .error e => .error e

/-- Models `clean_price` from `main.py`: on a string, remove commas and strip
whitespace, map `"-"` and `""` to the missing marker, otherwise attempt
integer conversion; on any other value attempt integer conversion directly. -/
def clean_price (c : Cell) : Except PyExc (Option Int) :=
  match c with
  | .str s =>
    let s1 := stripStr (removeCommas s)
    if s1 = "-" ∨ s1 = "" then .ok none else try_int (.str s1)
  | x => try_int x

example : clean_price (.str "12,500") = .ok (some 12500) := rfl
example : clean_price (.str "-") = .ok none := rfl
example : clean_price (.str "") = .ok none := rfl
example : clean_price (.str " 1,2,3 ") = .ok (some 123) := rfl
example : clean_price (.str "-5") = .ok (some (-5)) := rfl
example : clean_price (.str "abc") = .ok none := rfl
example : clean_price (.intV 7) = .ok (some 7) := rfl
example : clean_price .na = .ok none := rfl
example : clean_price (.floatV .nan) = .ok none := rfl
example : clean_price (.floatV .inf) = .error .overflowError := rfl

/-! ## Dates and date-label parsing -/

structure Date where
  year : Nat
  month : Nat
  day : Nat
deriving DecidableEq

/-- Chronological key of a (calendar-valid) date; orders dates the way
pandas datetime values are ordered. -/
def dateCode (d : Date) : Nat := d.year * 10000 + d.month * 100 + d.day

def leapYear (y : Nat) : Bool := y % 4 == 0 && (y % 100 != 0 || y % 400 == 0)

def daysInMonth (y m : Nat) : Nat :=
  match m with
  | 2 => if leapYear y then 29 else 28
  | 4 => 30
  | 6 => 30
  | 9 => 30
  | 11 => 30
  | _ => 31

/-- Split a character list on a separator character. -/
def splitOnChar (sep : Char) : List Char → List (List Char)
  | [] => [[]]
  | c :: r =>
    match splitOnChar sep r with
    | [] => if c = sep then [[], []] else [[c]]
    | h :: t => if c = sep then [] :: h :: t else (c :: h) :: t

/-- Decimal value of a nonempty all-digit character list, `none` otherwise. -/
def decDigits (l : List Char) : Option Nat :=
  if l ≠ [] ∧ l.all Char.isDigit then some (digitsVal l) else none

/-- Construct a calendar-valid date from day, month, year numbers. -/
def mkValidDate (d m y : Nat) : Option Date :=
  if 1 ≤ m ∧ m ≤ 12 ∧ 1 ≤ d ∧ d ≤ daysInMonth y m then some ⟨y, m, d⟩ else none

/-- Models `pd.to_datetime(x, format="%d/%m/%Y")` on one label: day and month
of one or two digits, a four-digit year, slash separators, calendar-valid. -/
def parseDMY (s : String) : Option Date :=
  match splitOnChar '/' s.data with
  | [ds, ms, ys] =>
    if ds.length ≤ 2 ∧ ms.length ≤ 2 ∧ ys.length = 4 then
      match decDigits ds, decDigits ms, decDigits ys with
      | some d, some m, some y => mkValidDate d m y
      | _, _, _ => none
    else none
  | _ => none

/-- Models the fallback `pd.to_datetime(x)` (generic date-format inference),
restricted to ISO `YYYY-MM-DD` labels — the shape the spec exercises for the
fallback path.  Other inferable shapes are outside the modelled scope. -/
def parseGeneric (s : String) : Option Date :=
  match splitOnChar '-' s.data with
  | [ys, ms, ds] =>
    if ys.length = 4 ∧ 1 ≤ ms.length ∧ ms.length ≤ 2 ∧ 1 ≤ ds.length ∧ ds.length ≤ 2 then
      match decDigits ys, decDigits ms, decDigits ds with
      | some y, some m, some d => mkValidDate d m y
      | _, _, _ => none
    else none
  | _ => none

/-! ## Tables -/

/-- A raw table as parsed from the uploaded file: column labels and rows of
raw cells (rectangular in practice; out-of-range positions read as missing). -/
structure RawTable where
  cols : List String
  rows : List (List Cell)
deriving DecidableEq

/-- The cleaned wide table: the region key (the former `Komoditas (Rp)`
column, renamed to `Provinsi` and set as index) with the normalized prices of
the date columns. -/
structure Wide where
  cols : List String
  rows : List (Cell × List (Option Int))
deriving DecidableEq

/-- One row of the melted (long) table before date parsing. -/
structure MRow where
  provinsi : Cell
  tanggal : String
  harga : Option Int
deriving DecidableEq

/-- One observation of the final long table.  The price stays an `Option` so
that the missing-price elimination is visible; `astype(int)` only changes the
column dtype once every remaining price is present. -/
structure Obs where
  provinsi : Cell
  tanggal : Date
  harga : Option Int
deriving DecidableEq

/-- `df_wide.transpose()`: date labels become the row index, regions the
columns. -/
structure Transposed where
  cols : List Cell
  idx : List String
  data : List (List (Option Int))
deriving DecidableEq

/-- Cells that `dropna` treats as missing: `pd.NA`, float NaN (and `None`). -/
def isNACell : Cell → Bool
  | .na => true
  | .floatV .nan => true
  | _ => false

def rowAllMissing (r : Cell × List (Option Int)) : Bool := r.2.all (fun v => v.isNone)

/-- `df_wide.dropna(how="all")`: drop rows whose date cells are all missing. -/
def dropAllMissing (rs : List (Cell × List (Option Int))) : List (Cell × List (Option Int)) :=
  rs.filter (fun r => !(rowAllMissing r))

/-- Lines 41-63 of `main.py`: require the `Komoditas (Rp)` column (else fail),
rename it to `Provinsi`, drop a `No` column if present, drop rows with a
missing region, set the region as index, normalize every remaining cell with
`clean_price` (which can raise), strip whitespace from the column labels, and
drop rows that are entirely missing.  Duplicate column labels are outside the
modelled scope (the first matching identifier column is used). -/
def wide_stage (t : RawTable) : Except PyExc (Option Wide) :=
  match t.cols.findIdx? (fun c => c == "Komoditas (Rp)") with
  | none => .ok none
  | some k =>
    let valueIdx := (List.range t.cols.length).filter
      (fun j => j != k && t.cols.getD j "" != "No")
    let rows1 := t.rows.filter (fun r => !(isNACell (r.getD k .na)))
    match rows1.mapM (fun r => do
      let vs ← valueIdx.mapM (fun j => clean_price (r.getD j .na))
      pure (r.getD k Cell.na, vs)) with
    | .error e => .error e
    | .ok rows2 =>
      .ok (some ⟨valueIdx.map (fun j => stripStr (t.cols.getD j "")), dropAllMissing rows2⟩)

/-- Core of `df_wide.reset_index().melt(id_vars="Provinsi", ...)`: the date
columns are stacked in order, each contributing one block that preserves the
row order (pandas melt is column-major). -/
def meltL : List String → List (Cell × List (Option Int)) → List MRow
  | [], _ => []
  | c :: cs, rows =>
    rows.map (fun r => ⟨r.1, c, r.2.headD none⟩) ++
      meltL cs (rows.map (fun r => (r.1, r.2.tail)))

def melt (w : Wide) : List MRow := meltL w.cols w.rows

/-- The melt followed by line 73: `df_long["Tanggal"].str.replace(" ", "")`. -/
def removeSpaces (s : String) : String := ⟨s.data.filter (fun c => c != ' ')⟩

def melt_stage (w : Wide) : List MRow :=
  (melt w).map (fun r => ⟨r.provinsi, removeSpaces r.tanggal, r.harga⟩)

/-- Lines 76-85: try the `%d/%m/%Y` format on the whole column; if any value
fails, retry the whole column with generic inference; if that also fails the
column is unparseable. -/
def parseDatesCol (ls : List String) : Option (List Date) :=
  match ls.mapM parseDMY with
  | some ds => some ds
  | none => ls.mapM parseGeneric

/-- Melt plus date parsing: `none` models the `return None` of the date
error branch. -/
def long_stage (w : Wide) : Option (List Obs) :=
  match parseDatesCol ((melt_stage w).map (fun r => r.tanggal)) with
  | none => none
  | some ds =>
    some (List.zipWith (fun (r : MRow) (d : Date) => ⟨r.provinsi, d, r.harga⟩) (melt_stage w) ds)

/-- Line 88: `df_long.dropna(subset=["Harga"])`. -/
def dropNaHarga (l : List Obs) : List Obs := l.filter (fun o => o.harga.isSome)

/-- Line 97: `df_wide.transpose()`. -/
def transposeW (w : Wide) : Transposed :=
  ⟨w.rows.map (fun r => r.1), w.cols,
    (List.range w.cols.length).map (fun i => w.rows.map (fun r => r.2.getD i none))⟩

/-- The pointwise order used by `sort_values(by="Tanggal")`. -/
def obsLe (a b : Obs) : Prop := dateCode a.tanggal ≤ dateCode b.tanggal

instance : DecidableRel obsLe := fun a b => Nat.decLe (dateCode a.tanggal) (dateCode b.tanggal)

instance : IsTotal Obs obsLe := ⟨fun x y => Nat.le_total (dateCode x.tanggal) (dateCode y.tanggal)⟩

instance : IsTrans Obs obsLe := ⟨fun _ _ _ hab hbc => Nat.le_trans hab hbc⟩

/-- Documented contract of `df_long.sort_values(by="Tanggal")` with the
default `kind="quicksort"`: the result is a permutation of the rows that is
sorted by the date key.  pandas guarantees stability only for
`kind="mergesort"`/`"stable"`, so the order of equal keys is unspecified and
any function satisfying this contract is an admissible implementation. -/
def SortSpec (f : List Obs → List Obs) : Prop :=
  ∀ l, (f l).Perm l ∧ List.Sorted obsLe (f l)

/-- One admissible implementation of the sort (used to instantiate the
parametric pipeline in witnesses). -/
def pandasSort : List Obs → List Obs := List.insertionSort obsLe

theorem sortSpec_pandasSort : SortSpec pandasSort :=
  fun l => ⟨List.perm_insertionSort obsLe l, List.sorted_insertionSort obsLe l⟩

/-- Lines 41-97 of `load_data`, after the file has been parsed into a raw
table, parametrized by the sort implementation. -/
def load_table (f : List Obs → List Obs) (t : RawTable) :
    Except PyExc (Option (List Obs × Transposed)) :=
  match wide_stage t with
  | .error e => .error e
  | .ok none => .ok none
  | .ok (some w) =>
    match long_stage w with
    | none => .ok none
    | some l => .ok (some (f (dropNaHarga l), transposeW w))

/-- The uploaded file, summarized by the outcomes of the two parse attempts
(`pd.read_excel`, then after a rewind `pd.read_csv`). -/
structure UploadedFile where
  asExcel : Option RawTable
  asCsv : Option RawTable

/-- `load_data` from `main.py`: `None` input fails immediately; otherwise the
spreadsheet parse is tried first, then the delimited-text parse; if both fail
the load fails; otherwise the parsed table goes through the pipeline. -/
def load_data (f : List Obs → List Obs) (u : Option UploadedFile) :
    Except PyExc (Option (List Obs × Transposed)) :=
  match u with
  | none => .ok none
  | some file =>
    match file.asExcel with
    | some t => load_table f t
    | none =>
      match file.asCsv with
      | some t => load_table f t
      | none => .ok none

/-! ## Re-pivot (spec-side definition for the round-trip property) -/

/-- Duplicate removal keeping the first occurrence of each element. -/
def dedupF {α : Type} [DecidableEq α] : List α → List α
  | [] => []
  | x :: r => x :: (dedupF r).filter (fun y => y != x)

/-- Modelled from the spec: re-pivoting a long table ("group by Region, pivot
Date to columns") — regions in order of first appearance become the rows,
date labels in order of first appearance become the columns, and each cell is
the price of the first matching (Region, Date) observation. -/
def pivotByRegion (l : List MRow) : Wide :=
  ⟨dedupF (l.map (fun r => r.tanggal)),
    (dedupF (l.map (fun r => r.provinsi))).map (fun p =>
      (p, (dedupF (l.map (fun r => r.tanggal))).map (fun d =>
        ((l.find? (fun r => r.provinsi == p && r.tanggal == d)).bind (fun r => r.harga)))))⟩

example :
    load_table pandasSort
      ⟨["Komoditas (Rp)", "01/01/2024", "02/01/2024"],
        [[.str "Jakarta", .str "12,500", .str "-"]]⟩ =
    .ok (some ([⟨.str "Jakarta", ⟨2024, 1, 1⟩, some 12500⟩],
      ⟨[.str "Jakarta"], ["01/01/2024", "02/01/2024"], [[some 12500], [none]]⟩)) := rfl

/-! ## Helper lemmas about the string machinery -/

theorem dropWhile_eq_self_of_all {p : Char → Bool} {l : List Char}
    (h : ∀ c ∈ l, p c = false) : l.dropWhile p = l := by
  cases l with
  | nil => rfl
  | cons x xs =>
    rw [List.dropWhile_cons, if_neg]
    simp [h x (List.mem_cons_self x xs)]

theorem stripChars_eq_self {l : List Char} (h : ∀ c ∈ l, isWS c = false) :
    stripChars l = l := by
  unfold stripChars
  rw [dropWhile_eq_self_of_all h,
    dropWhile_eq_self_of_all (fun c hc => h c (List.mem_reverse.mp hc)),
    List.reverse_reverse]

theorem not_ws_of_digit {c : Char} (h : c.isDigit = true) : isWS c = false := by
  cases hw : isWS c with
  | false => rfl
  | true =>
    exfalso
    unfold isWS Char.isWhitespace at hw
    simp only [Bool.or_eq_true, decide_eq_true_eq] at hw
    rcases hw with ((rfl | rfl) | rfl) | rfl <;> exact absurd h (by decide)

theorem digit_ne_comma {c : Char} (h : c.isDigit = true) : (c != ',') = true := by
  simp only [bne_iff_ne, ne_eq]
  rintro rfl
  exact absurd h (by decide)

theorem digitPartGo_all (t : List Char) : ∀ acc, t.all Char.isDigit = true →
    digitPartGo acc t = some (t.foldl (fun a c => 10 * a + digitVal c) acc) := by
  induction t with
  | nil => intro acc _; rfl
  | cons c r ih =>
    intro acc h
    rw [List.all_cons, Bool.and_eq_true] at h
    unfold digitPartGo
    rw [if_pos h.1, ih _ h.2, List.foldl_cons]

theorem pyDigitPart_all {l : List Char} (h1 : l ≠ []) (h2 : l.all Char.isDigit = true) :
    pyDigitPart l = some (digitsVal l) := by
  cases l with
  | nil => exact absurd rfl h1
  | cons c r =>
    rw [List.all_cons, Bool.and_eq_true] at h2
    simp only [pyDigitPart]
    rw [if_pos h2.1, digitPartGo_all r _ h2.2]
    unfold digitsVal
    rw [List.foldl_cons]
    congr 2
    unfold digitVal
    omega

theorem filter_comma_eq_filter_digit {l : List Char}
    (h : ∀ c ∈ l, (c.isDigit || c == ',') = true) :
    l.filter (fun c => c != ',') = l.filter Char.isDigit := by
  induction l with
  | nil => rfl
  | cons c r ih =>
    have hc := h c (List.mem_cons_self c r)
    have hr : ∀ x ∈ r, (x.isDigit || x == ',') = true :=
      fun x hx => h x (List.mem_cons_of_mem c hx)
    rw [Bool.or_eq_true] at hc
    rcases hc with hd | hcomma
    · rw [List.filter_cons, List.filter_cons, if_pos (digit_ne_comma hd), if_pos hd, ih hr]
    · rw [beq_iff_eq] at hcomma
      subst hcomma
      rw [List.filter_cons, List.filter_cons, if_neg (by decide), if_neg (by decide), ih hr]

theorem clean_price_str (s : String) :
    clean_price (.str s) =
      if stripStr (removeCommas s) = "-" ∨ stripStr (removeCommas s) = "" then .ok none
      else try_int (.str (stripStr (removeCommas s))) := rfl

theorem try_int_str_some {s : String} {n : Int} (h : pyStrToInt s = some n) :
    try_int (.str s) = .ok (some n) := by
  simp only [try_int, int_of]
  rw [h]

theorem try_int_str_none {s : String} (h : pyStrToInt s = none) :
    try_int (.str s) = .ok none := by
  simp only [try_int, int_of]
  rw [h]

/-! ## C1: the Price Normalizer's output guarantee -/

/-- C1 counterexample: the claim "clean_price returns either a valid
non-negative integer or the missing marker, and never raises" is false on the
code: the string "-5" is cleaned to the negative integer -5, and an infinite
float raises an uncaught OverflowError (only ValueError and TypeError are
caught). -/
theorem C1_counterexample :
    clean_price (.str "-5") = .ok (some (-5)) ∧ ((-5 : Int) < 0) ∧
      clean_price (.floatV .inf) = .error .overflowError :=
  ⟨rfl, by decide, rfl⟩

/-- C1 (amended): for every raw cell value other than an infinite float,
clean_price returns an integer (possibly negative) or the missing marker and
never raises an exception to the caller. -/
theorem C1_amended (c : Cell) (h1 : c ≠ .floatV .inf) (h2 : c ≠ .floatV .ninf) :
    ∃ r : Option Int, clean_price c = .ok r := by
  cases c with
  | str s =>
    rw [clean_price_str]
    by_cases hB : stripStr (removeCommas s) = "-" ∨ stripStr (removeCommas s) = ""
    · exact ⟨none, by rw [if_pos hB]⟩
    · rw [if_neg hB]
      cases hp : pyStrToInt (stripStr (removeCommas s)) with
      | none => exact ⟨none, try_int_str_none hp⟩
      | some n => exact ⟨some n, try_int_str_some hp⟩
  | intV n => exact ⟨some n, rfl⟩
  | na => exact ⟨none, rfl⟩
  | floatV x =>
    cases x with
    | fin q => exact ⟨some (pytrunc q), rfl⟩
    | nan => exact ⟨none, rfl⟩
    | inf => exact absurd rfl h1
    | ninf => exact absurd rfl h2

/-- C1 witness: the amended guarantee evaluated at a concrete cell. -/
theorem C1_amended_witness : ∃ r : Option Int, clean_price (.str "n/a") = .ok r :=
  C1_amended (.str "n/a") (by decide) (by decide)

/-! ## C10: no input means immediate failure signal -/

/-- C10: calling load_data with no uploaded file returns the failure signal
(None) at once — no exception and, by the shape of the definition, no
pipeline stage runs. -/
theorem C10_no_input (f : List Obs → List Obs) : load_data f none = .ok none := rfl

/-! ## C3: schema validation failure -/

/-- C3: a raw table lacking the required identifier column 'Komoditas (Rp)'
makes load_data fail with the schema-error signal (None) and produce no
output tables. -/
theorem C3_schema_failure (f : List Obs → List Obs) (t : RawTable) (c : Option RawTable)
    (h : "Komoditas (Rp)" ∉ t.cols) :
    load_data f (some ⟨some t, c⟩) = .ok none := by
  have hw : wide_stage t = .ok none := by
    unfold wide_stage
    rw [List.findIdx?_eq_none_iff.mpr ?_]
    intro x hx
    rw [beq_eq_false_iff_ne]
    rintro rfl
    exact h hx
  show load_table f t = .ok none
  unfold load_table
  rw [hw]

/-- C3 witness: a concrete table without the identifier column. -/
theorem C3_schema_failure_witness :
    load_data pandasSort (some ⟨some ⟨["Wilayah", "01/01/2024"], [[.str "Jakarta", .str "1"]]⟩, none⟩) =
      .ok none :=
  C3_schema_failure pandasSort _ none (by decide)

/-! ## C2: the normalizer on regex-matching text -/

/-- Body of the spec's regular expression after the optional sign:
one digit, then digits or commas. -/
def reMatchCore : List Char → Bool
  | [] => false
  | c :: rest => c.isDigit && rest.all (fun x => x.isDigit || x == ',')

def reMatchL : List Char → Bool
  | [] => false
  | c :: t => if c = '-' then reMatchCore t else reMatchCore (c :: t)

/-- The spec's regular expression `^-?\d[\d,]*$` as a matcher. -/
def reMatch (s : String) : Bool := reMatchL s.data

def reValueL : List Char → Int
  | [] => 0
  | c :: t =>
    if c = '-' then -(digitsVal (t.filter Char.isDigit) : Int)
    else (digitsVal ((c :: t).filter Char.isDigit) : Int)

/-- The integer value of a matching string with the thousands separators
removed: the value of its digit sequence, negated under a leading sign. -/
def reValue (s : String) : Int := reValueL s.data

theorem notws_of_digit_or_comma {x : Char} (h : (x.isDigit || x == ',') = true) :
    isWS x = false := by
  rw [Bool.or_eq_true] at h
  rcases h with h | h
  · exact not_ws_of_digit h
  · rw [beq_iff_eq] at h
    subst h
    decide

theorem pyStrToInt_digits {s : String} {c : Char} {t : List Char}
    (hd : s.data = c :: t) (hc : c.isDigit = true) (ht : t.all Char.isDigit = true) :
    pyStrToInt s = some ((digitsVal (c :: t) : Int)) := by
  have hstrip : stripChars (c :: t) = c :: t := stripChars_eq_self (by
    intro x hx
    rcases List.mem_cons.mp hx with rfl | hm
    · exact not_ws_of_digit hc
    · exact not_ws_of_digit (List.all_eq_true.mp ht x hm))
  have hc1 : c ≠ '-' := by
    intro e
    rw [e] at hc
    exact absurd hc (by decide)
  have hc2 : c ≠ '+' := by
    intro e
    rw [e] at hc
    exact absurd hc (by decide)
  unfold pyStrToInt
  rw [hd, hstrip]
  simp only [pyStrToIntL]
  rw [if_neg hc1, if_neg hc2,
    pyDigitPart_all (List.cons_ne_nil c t) (by rw [List.all_cons, Bool.and_eq_true]; exact ⟨hc, ht⟩)]
  rfl

theorem pyStrToInt_neg {s : String} {t : List Char} (hd : s.data = '-' :: t)
    (h1 : t ≠ []) (ht : t.all Char.isDigit = true) :
    pyStrToInt s = some (-(digitsVal t : Int)) := by
  have hstrip : stripChars ('-' :: t) = '-' :: t := stripChars_eq_self (by
    intro x hx
    rcases List.mem_cons.mp hx with rfl | hm
    · decide
    · exact not_ws_of_digit (List.all_eq_true.mp ht x hm))
  unfold pyStrToInt
  rw [hd, hstrip]
  simp [pyStrToIntL, pyDigitPart_all h1 ht]

theorem clean_price_pos_core {s : String} {c : Char} {t : List Char}
    (hd : s.data = c :: t) (hc : c.isDigit = true)
    (hall : ∀ x ∈ t, (x.isDigit || x == ',') = true) :
    clean_price (.str s) = .ok (some ((digitsVal ((c :: t).filter Char.isDigit) : Int))) := by
  have htf : t.filter (fun x => x != ',') = t.filter Char.isDigit :=
    filter_comma_eq_filter_digit hall
  have hclean : (removeCommas s).data = c :: t.filter (fun x => x != ',') := by
    show s.data.filter (fun x => x != ',') = c :: t.filter (fun x => x != ',')
    rw [hd, List.filter_cons, if_pos (digit_ne_comma hc)]
  have hstrip : (stripStr (removeCommas s)).data = c :: t.filter (fun x => x != ',') := by
    show stripChars (removeCommas s).data = c :: t.filter (fun x => x != ',')
    rw [hclean]
    exact stripChars_eq_self (by
      intro x hx
      rcases List.mem_cons.mp hx with rfl | hm
      · exact not_ws_of_digit hc
      · exact notws_of_digit_or_comma (hall x (List.mem_of_mem_filter hm)))
  have hne1 : stripStr (removeCommas s) ≠ "-" := by
    intro he
    have h0 := congrArg String.data he
    rw [hstrip, show "-".data = ['-'] from rfl] at h0
    injection h0 with h1 h2
    rw [h1] at hc
    exact absurd hc (by decide)
  have hne2 : stripStr (removeCommas s) ≠ "" := by
    intro he
    have h0 := congrArg String.data he
    rw [hstrip, show "".data = ([] : List Char) from rfl] at h0
    exact List.cons_ne_nil _ _ h0
  have hps : pyStrToInt (stripStr (removeCommas s)) =
      some ((digitsVal (c :: t.filter (fun x => x != ','))) : Int) :=
    pyStrToInt_digits hstrip hc
      (by rw [htf]; exact List.all_eq_true.mpr (fun x hx => List.of_mem_filter hx))
  rw [clean_price_str, if_neg (fun hAB => hAB.elim hne1 hne2), try_int_str_some hps,
    htf, List.filter_cons, if_pos hc]

theorem clean_price_neg_core {s : String} {d : Char} {ds : List Char}
    (hd : s.data = '-' :: d :: ds) (hdd : d.isDigit = true)
    (hall : ∀ x ∈ ds, (x.isDigit || x == ',') = true) :
    clean_price (.str s) = .ok (some (-(digitsVal ((d :: ds).filter Char.isDigit) : Int))) := by
  have htf : ds.filter (fun x => x != ',') = ds.filter Char.isDigit :=
    filter_comma_eq_filter_digit hall
  have hclean : (removeCommas s).data = '-' :: d :: ds.filter (fun x => x != ',') := by
    show s.data.filter (fun x => x != ',') = '-' :: d :: ds.filter (fun x => x != ',')
    rw [hd, List.filter_cons, if_pos (by decide), List.filter_cons, if_pos (digit_ne_comma hdd)]
  have hstrip : (stripStr (removeCommas s)).data = '-' :: d :: ds.filter (fun x => x != ',') := by
    show stripChars (removeCommas s).data = '-' :: d :: ds.filter (fun x => x != ',')
    rw [hclean]
    exact stripChars_eq_self (by
      intro x hx
      rcases List.mem_cons.mp hx with rfl | hm
      · decide
      · rcases List.mem_cons.mp hm with rfl | hm2
        · exact not_ws_of_digit hdd
        · exact notws_of_digit_or_comma (hall x (List.mem_of_mem_filter hm2)))
  have hne1 : stripStr (removeCommas s) ≠ "-" := by
    intro he
    have h0 := congrArg String.data he
    rw [hstrip, show "-".data = ['-'] from rfl] at h0
    injection h0 with h1 h2
    exact List.cons_ne_nil _ _ h2
  have hne2 : stripStr (removeCommas s) ≠ "" := by
    intro he
    have h0 := congrArg String.data he
    rw [hstrip, show "".data = ([] : List Char) from rfl] at h0
    exact List.cons_ne_nil _ _ h0
  have hps : pyStrToInt (stripStr (removeCommas s)) =
      some (-(digitsVal (d :: ds.filter (fun x => x != ','))) : Int) :=
    pyStrToInt_neg hstrip (List.cons_ne_nil _ _)
      (by
        rw [List.all_cons, Bool.and_eq_true]
        exact ⟨hdd, by rw [htf]; exact List.all_eq_true.mpr (fun x hx => List.of_mem_filter hx)⟩)
  rw [clean_price_str, if_neg (fun hAB => hAB.elim hne1 hne2), try_int_str_some hps,
    htf, List.filter_cons, if_pos hdd]

/-- C2: on text matching `^-?\d[\d,]*$` the normalizer returns the integer
value with the thousands separators removed; the token "-", the empty string
and non-numeric text (text whose comma-stripped, whitespace-stripped form is
not a Python integer literal) map to the missing marker; and already-clean
integers pass through unchanged. -/
theorem C2_normalizer :
    (∀ s : String, reMatch s = true → clean_price (.str s) = .ok (some (reValue s))) ∧
    clean_price (.str "-") = .ok none ∧
    clean_price (.str "") = .ok none ∧
    (∀ s : String, pyStrToInt (stripStr (removeCommas s)) = none →
      clean_price (.str s) = .ok none) ∧
    (∀ n : Int, clean_price (.intV n) = .ok (some n)) := by
  refine ⟨?_, rfl, rfl, ?_, fun n => rfl⟩
  · intro s h
    have h' : reMatchL s.data = true := h
    unfold reValue
    rcases hsd : s.data with _ | ⟨c, t⟩
    · rw [hsd] at h'
      exact absurd h' (by decide)
    · rw [hsd] at h'
      simp only [reMatchL] at h'
      by_cases hcm : c = '-'
      · subst hcm
        rw [if_pos rfl] at h'
        cases t with
        | nil => exact absurd h' (by decide)
        | cons d ds =>
          simp only [reMatchCore, Bool.and_eq_true] at h'
          exact clean_price_neg_core hsd h'.1 (List.all_eq_true.mp h'.2)
      · rw [if_neg hcm] at h'
        simp only [reMatchCore, Bool.and_eq_true] at h'
        have hval : reValueL (c :: t) = ((digitsVal ((c :: t).filter Char.isDigit) : Int)) := by
          simp only [reValueL]
          rw [if_neg hcm]
        rw [hval]
        exact clean_price_pos_core hsd h'.1 (List.all_eq_true.mp h'.2)
  · intro s h
    rw [clean_price_str]
    by_cases hB : stripStr (removeCommas s) = "-" ∨ stripStr (removeCommas s) = ""
    · rw [if_pos hB]
    · rw [if_neg hB, try_int_str_none h]

/-- C2 witness: the normalizer contract evaluated at concrete inputs. -/
theorem C2_normalizer_witness :
    clean_price (.str "12,500") = .ok (some 12500) ∧
    clean_price (.str "n.a.") = .ok none ∧
    clean_price (.intV 9) = .ok (some 9) := by
  refine ⟨?_, ?_, C2_normalizer.2.2.2.2 9⟩
  · rw [C2_normalizer.1 "12,500" (by decide)]
    decide
  · exact C2_normalizer.2.2.2.1 "n.a." (by decide)

/-! ## Unpacking a successful load -/

theorem load_table_ok {f : List Obs → List Obs} {t : RawTable} {res : List Obs × Transposed}
    (h : load_table f t = .ok (some res)) :
    ∃ w l, wide_stage t = .ok (some w) ∧ long_stage w = some l ∧
      res = (f (dropNaHarga l), transposeW w) := by
  unfold load_table at h
  split at h
  case _ e he => exact Except.noConfusion h
  case _ he => simp at h
  case _ w he =>
    split at h
    case _ hl => simp at h
    case _ l hl =>
      simp only [Except.ok.injEq, Option.some.injEq] at h
      exact ⟨w, l, he, hl, h.symm⟩

theorem load_data_ok {f : List Obs → List Obs} {u : Option UploadedFile}
    {res : List Obs × Transposed} (h : load_data f u = .ok (some res)) :
    ∃ t : RawTable, load_table f t = .ok (some res) := by
  unfold load_data at h
  split at h
  · simp at h
  · split at h
    · exact ⟨_, h⟩
    · split at h
      · exact ⟨_, h⟩
      · simp at h

/-! ## Concrete tables used by the witnesses and counterexamples -/

def tC8 : RawTable :=
  ⟨["Komoditas (Rp)", "01/01/2024", "02/01/2024"],
    [[.str "Jakarta", .str "12,500", .str "-"]]⟩

def wC8 : Wide := ⟨["01/01/2024", "02/01/2024"], [(.str "Jakarta", [some 12500, none])]⟩

def jakartaObs : Obs := ⟨.str "Jakarta", ⟨2024, 1, 1⟩, some 12500⟩

def tC4 : RawTable :=
  ⟨["Komoditas (Rp)", "01/01/2024"], [[.str "A", .str "1"], [.str "B", .str "2"]]⟩

def wC4 : Wide := ⟨["01/01/2024"], [(.str "A", [some 1]), (.str "B", [some 2])]⟩

def obsA : Obs := ⟨.str "A", ⟨2024, 1, 1⟩, some 1⟩

def obsB : Obs := ⟨.str "B", ⟨2024, 1, 1⟩, some 2⟩

/-- A sort implementation that satisfies the documented `sort_values`
contract (sorted permutation) but reorders the two equal-date rows of the
tC4 load; on every other input it behaves like insertion sort. -/
def badSort (l : List Obs) : List Obs :=
  if l = [obsA, obsB] then [obsB, obsA] else List.insertionSort obsLe l

theorem sortSpec_badSort : SortSpec badSort := by
  intro l
  unfold badSort
  by_cases h : l = [obsA, obsB]
  · rw [if_pos h]
    subst h
    constructor
    · exact List.Perm.swap obsA obsB []
    · simp [List.sorted_cons, obsLe, obsA, obsB, dateCode]
  · rw [if_neg h]
    exact ⟨List.perm_insertionSort obsLe l, List.sorted_insertionSort obsLe l⟩

/-! ## C4: sort order of the long table -/

/-- C4 counterexample: the stability half of the claim is false.  The code
sorts with pandas' default quicksort, whose documented contract guarantees
only a permutation sorted by the key (stability is guaranteed only for
kind=mergesort/stable).  badSort satisfies that contract, yet on the table
tC4 the successful load returns the two equal-date observations in reversed
pre-sort order. -/
theorem C4_counterexample :
    SortSpec badSort ∧
    wide_stage tC4 = .ok (some wC4) ∧
    long_stage wC4 = some [obsA, obsB] ∧
    dropNaHarga [obsA, obsB] = [obsA, obsB] ∧
    obsA.tanggal = obsB.tanggal ∧
    load_table badSort tC4 = .ok (some ([obsB, obsA], transposeW wC4)) ∧
    [obsB, obsA] ≠ [obsA, obsB] :=
  ⟨sortSpec_badSort, rfl, rfl, rfl, rfl, rfl, by decide⟩

/-- C4 (amended): in every LongTable produced by a successful load_data,
adjacent observations are ascending by date; the relative order of
observations with equal dates is unspecified, because the default sort is
not stable. -/
theorem C4_amended_sorted {f : List Obs → List Obs} {u : Option UploadedFile}
    {long : List Obs} {tr : Transposed} (hf : SortSpec f)
    (h : load_data f u = .ok (some (long, tr))) : List.Chain' obsLe long := by
  obtain ⟨t, ht⟩ := load_data_ok h
  obtain ⟨w, l, hw, hl, heq⟩ := load_table_ok ht
  have hlong : long = f (dropNaHarga l) := congrArg Prod.fst heq
  rw [hlong]
  exact ((hf (dropNaHarga l)).2).chain'

/-- C4 witness: the amended sort invariant evaluated on a concrete load. -/
theorem C4_amended_sorted_witness : List.Chain' obsLe [obsA, obsB] :=
  C4_amended_sorted (u := some ⟨some tC4, none⟩) sortSpec_pandasSort rfl

/-! ## C5: no missing price after the load -/

/-- C5: every observation in the LongTable of a successful load_data has a
present (non-missing) price: rows with a missing normalized price are
filtered out before the result is returned. -/
theorem C5_no_missing_price {f : List Obs → List Obs} {u : Option UploadedFile}
    {long : List Obs} {tr : Transposed} (hf : SortSpec f)
    (h : load_data f u = .ok (some (long, tr))) :
    ∀ o ∈ long, o.harga.isSome = true := by
  obtain ⟨t, ht⟩ := load_data_ok h
  obtain ⟨w, l, hw, hl, heq⟩ := load_table_ok ht
  have hlong : long = f (dropNaHarga l) := congrArg Prod.fst heq
  intro o ho
  rw [hlong] at ho
  have hmem : o ∈ dropNaHarga l := ((hf (dropNaHarga l)).1.mem_iff).mp ho
  exact (List.mem_filter.mp hmem).2

/-- C5 witness: the invariant evaluated on a concrete load and observation. -/
theorem C5_no_missing_price_witness : jakartaObs.harga.isSome = true :=
  C5_no_missing_price (u := some ⟨some tC8, none⟩) sortSpec_pandasSort rfl
    jakartaObs (List.mem_cons_self jakartaObs [])

/-! ## C7: date parsing with fallback -/

def tC7 : RawTable := ⟨["Komoditas (Rp)", "header"], [[.str "J", .str "1"]]⟩

/-- C7: the primary day/month/year format is tried on the whole column first
(when it succeeds the fallback is not consulted); ISO-form headers fail the
primary format but still parse via the generic-inference fallback; and when
both attempts fail on the melted column, load_data fails with the error
signal and no partial result. -/
theorem C7_date_fallback :
    (∀ ls : List String, (ls.mapM parseDMY).isSome = true →
      parseDatesCol ls = ls.mapM parseDMY) ∧
    (["2024-01-01", "2024-01-02"].mapM parseDMY = none ∧
      parseDatesCol ["2024-01-01", "2024-01-02"] = some [⟨2024, 1, 1⟩, ⟨2024, 1, 2⟩]) ∧
    (∀ (f : List Obs → List Obs) (t : RawTable) (w : Wide), wide_stage t = .ok (some w) →
      parseDatesCol ((melt_stage w).map (fun r => r.tanggal)) = none →
      load_table f t = .ok none) := by
  refine ⟨?_, ⟨rfl, rfl⟩, ?_⟩
  · intro ls h
    unfold parseDatesCol
    cases hm : ls.mapM parseDMY with
    | none =>
      rw [hm] at h
      exact absurd h (by decide)
    | some ds => rfl
  · intro f t w hw hp
    have hl : long_stage w = none := by
      unfold long_stage
      rw [hp]
    unfold load_table
    rw [hw]
    simp [hl]

/-- C7 witness: a concrete table whose header parses under neither format. -/
theorem C7_date_fallback_witness : load_table pandasSort tC7 = .ok none :=
  C7_date_fallback.2.2 pandasSort tC7 ⟨["header"], [(.str "J", [some 1])]⟩ rfl rfl

/-! ## C8: the spec's end-to-end example -/

/-- C8: on the example table (columns Komoditas (Rp), 01/01/2024, 02/01/2024
and single row Jakarta, "12,500", "-") the load succeeds and the LongTable is
exactly [(Jakarta, 2024-01-01, 12500)]: the 02/01/2024 observation is dropped
for its missing price. -/
theorem C8_example (f : List Obs → List Obs) (hf : SortSpec f) :
    ∃ tr : Transposed, load_table f tC8 = .ok (some ([jakartaObs], tr)) := by
  have h1 : load_table f tC8 = .ok (some (f [jakartaObs], transposeW wC8)) := rfl
  have h2 : f [jakartaObs] = [jakartaObs] := List.perm_singleton.mp (hf [jakartaObs]).1
  exact ⟨transposeW wC8, by rw [h1, h2]⟩

/-- C8 witness: the example evaluated with a concrete admissible sort. -/
theorem C8_example_witness :
    ∃ tr : Transposed, load_table pandasSort tC8 = .ok (some ([jakartaObs], tr)) :=
  C8_example pandasSort sortSpec_pandasSort

/-! ## C9: the transposed summary can keep missing cells -/

def tC9 : RawTable :=
  ⟨["Komoditas (Rp)", "01/01/2024", "02/01/2024"],
    [[.str "Jakarta", .str "12,500", .str "-"], [.str "Bandung", .str "-", .str "-"]]⟩

/-- C9: only rows whose date cells are all missing are dropped before
transposition (Bandung).  A region with some but not all prices missing
(Jakarta) keeps its missing cell in the TransposedSummaryTable, while the
LongTable contains no missing prices. -/
theorem C9_transposed_missing (f : List Obs → List Obs) (hf : SortSpec f) :
    load_table f tC9 = .ok (some ([jakartaObs],
      ⟨[.str "Jakarta"], ["01/01/2024", "02/01/2024"], [[some 12500], [none]]⟩)) ∧
    (∃ row ∈ ([[some (12500 : Int)], [none]] : List (List (Option Int))), none ∈ row) ∧
    (∀ o ∈ [jakartaObs], o.harga.isSome = true) ∧
    (∀ (rs : List (Cell × List (Option Int))) (x : Cell × List (Option Int)),
      x ∈ dropAllMissing rs ↔ x ∈ rs ∧ rowAllMissing x = false) := by
  refine ⟨?_, ⟨[none], by simp⟩, by decide, ?_⟩
  · have h1 : load_table f tC9 = .ok (some (f [jakartaObs],
        ⟨[.str "Jakarta"], ["01/01/2024", "02/01/2024"], [[some 12500], [none]]⟩)) := rfl
    have h2 : f [jakartaObs] = [jakartaObs] := List.perm_singleton.mp (hf [jakartaObs]).1
    rw [h1, h2]
  · intro rs x
    simp [dropAllMissing, List.mem_filter]

/-- C9 witness: the statement evaluated with a concrete admissible sort. -/
theorem C9_transposed_missing_witness :
    load_table pandasSort tC9 = .ok (some ([jakartaObs],
      ⟨[.str "Jakarta"], ["01/01/2024", "02/01/2024"], [[some 12500], [none]]⟩)) :=
  (C9_transposed_missing pandasSort sortSpec_pandasSort).1

/-! ## C6: melt / re-pivot round trip -/

theorem meltL_length : ∀ (cols : List String) (rows : List (Cell × List (Option Int))),
    (meltL cols rows).length = cols.length * rows.length := by
  intro cols
  induction cols with
  | nil => intro rows; simp [meltL]
  | cons c cs ih =>
    intro rows
    simp [meltL, List.length_append, List.length_map, ih, Nat.succ_mul, Nat.add_comm]

theorem provinsi_mem_meltL : ∀ (cols : List String) rows (r : MRow),
    r ∈ meltL cols rows → r.provinsi ∈ rows.map (fun x => x.1) := by
  intro cols
  induction cols with
  | nil => intro rows r hr; exact absurd hr (List.not_mem_nil r)
  | cons c cs ih =>
    intro rows r hr
    rcases List.mem_append.mp hr with hb | ht
    · obtain ⟨x, hx, rfl⟩ := List.mem_map.mp hb
      exact List.mem_map.mpr ⟨x, hx, rfl⟩
    · have := ih _ r ht
      simpa [List.map_map] using this

theorem mem_dedupF {α : Type} [DecidableEq α] {x : α} : ∀ {l : List α}, x ∈ dedupF l → x ∈ l := by
  intro l
  induction l with
  | nil => exact fun h => h
  | cons a r ih =>
    intro h
    rcases List.mem_cons.mp h with rfl | hm
    · exact List.mem_cons_self _ _
    · exact List.mem_cons_of_mem a (ih (List.mem_of_mem_filter hm))

theorem dedupF_eq_self_of_nodup {α : Type} [DecidableEq α] :
    ∀ {l : List α}, l.Nodup → dedupF l = l := by
  intro l
  induction l with
  | nil => intro _; rfl
  | cons a r ih =>
    intro h
    rw [List.nodup_cons] at h
    show a :: (dedupF r).filter (fun y => y != a) = a :: r
    rw [ih h.2, List.filter_eq_self.mpr]
    intro y hy
    simp only [bne_iff_ne, ne_eq]
    rintro rfl
    exact h.1 hy

theorem dedupF_replicate_append {α : Type} [DecidableEq α] (c : α) :
    ∀ (m : Nat), 0 < m → ∀ (x : List α),
      dedupF (List.replicate m c ++ x) = c :: (dedupF x).filter (fun y => y != c) := by
  intro m
  induction m with
  | zero => omega
  | succ n ih =>
    intro _ x
    cases n with
    | zero => rfl
    | succ k =>
      rw [List.replicate_succ, List.cons_append]
      show c :: (dedupF (List.replicate (k + 1) c ++ x)).filter (fun y => y != c) = _
      rw [ih (by omega) x, List.filter_cons, if_neg (by simp [bne_self_eq_false]),
        List.filter_filter]
      simp [Bool.and_self]

theorem dedupF_append_filter {α : Type} [DecidableEq α] :
    ∀ (l1 l2 S : List α), (∀ x ∈ l2, x ∈ l1 ∨ x ∈ S) →
      (dedupF (l1 ++ l2)).filter (fun y => !(decide (y ∈ S))) =
        (dedupF l1).filter (fun y => !(decide (y ∈ S))) := by
  intro l1
  induction l1 with
  | nil =>
    intro l2 S h
    rw [List.nil_append]
    show (dedupF l2).filter _ = ([] : List α).filter _
    rw [List.filter_eq_nil_iff.mpr, List.filter_nil]
    intro a ha
    have haS : a ∈ S := (h a (mem_dedupF ha)).resolve_left (List.not_mem_nil a)
    simp [haS]
  | cons a l1 ih =>
    intro l2 S h
    have key : ∀ (X : List α),
        ((dedupF X).filter (fun y => y != a)).filter (fun y => !(decide (y ∈ S))) =
          (dedupF X).filter (fun y => !(decide (y ∈ a :: S))) := by
      intro X
      rw [List.filter_filter]
      apply List.filter_congr
      intro x _
      by_cases hxa : x = a
      · subst hxa
        simp
      · by_cases hxS : x ∈ S <;> simp [hxa, hxS]
    have hsub : ∀ x ∈ l2, x ∈ l1 ∨ x ∈ a :: S := by
      intro x hx
      rcases h x hx with hx1 | hxS
      · rcases List.mem_cons.mp hx1 with rfl | hm
        · exact Or.inr (List.mem_cons_self _ _)
        · exact Or.inl hm
      · exact Or.inr (List.mem_cons_of_mem a hxS)
    rw [List.cons_append]
    show (a :: (dedupF (l1 ++ l2)).filter (fun y => y != a)).filter
        (fun y => !(decide (y ∈ S))) =
      (a :: (dedupF l1).filter (fun y => y != a)).filter (fun y => !(decide (y ∈ S)))
    rw [List.filter_cons, List.filter_cons, key (l1 ++ l2), ih l2 (a :: S) hsub, ← key l1]

theorem dedupF_append_of_subset {α : Type} [DecidableEq α] {l1 l2 : List α}
    (h : ∀ x ∈ l2, x ∈ l1) : dedupF (l1 ++ l2) = dedupF l1 := by
  have hf := dedupF_append_filter l1 l2 [] (fun x hx => Or.inl (h x hx))
  have htrue : ∀ (X : List α), X.filter (fun y => !(decide (y ∈ ([] : List α)))) = X := by
    intro X
    rw [show (fun y => !(decide (y ∈ ([] : List α)))) = (fun y : α => true) from ?_,
      List.filter_true]
    funext y
    simp
  rw [htrue, htrue] at hf
  exact hf

theorem dedupF_tanggal_meltL : ∀ (cols : List String) rows, rows ≠ [] → cols.Nodup →
    dedupF ((meltL cols rows).map (fun r => r.tanggal)) = cols := by
  intro cols
  induction cols with
  | nil => intro rows _ _; rfl
  | cons c cs ih =>
    intro rows hR hnd
    rw [List.nodup_cons] at hnd
    have hlen : 0 < rows.length := List.length_pos_of_ne_nil hR
    have hblock : (meltL (c :: cs) rows).map (fun r => r.tanggal) =
        List.replicate rows.length c ++
          (meltL cs (rows.map (fun r => (r.1, r.2.tail)))).map (fun r => r.tanggal) := by
      show ((rows.map (fun r => (⟨r.1, c, r.2.headD none⟩ : MRow))) ++
        meltL cs (rows.map (fun r => (r.1, r.2.tail)))).map (fun r => r.tanggal) = _
      rw [List.map_append, List.map_map]
      congr 1
      rw [show ((fun (r : MRow) => r.tanggal) ∘
        (fun (r : Cell × List (Option Int)) => (⟨r.1, c, r.2.headD none⟩ : MRow))) =
          (fun (r : Cell × List (Option Int)) => c) from rfl, List.map_const']
    rw [hblock, dedupF_replicate_append c rows.length hlen,
      ih (rows.map (fun r => (r.1, r.2.tail))) (by simpa using hR) hnd.2,
      List.filter_eq_self.mpr]
    intro y hy
    simp only [bne_iff_ne, ne_eq]
    rintro rfl
    exact hnd.1 hy

theorem dedupF_provinsi_meltL : ∀ (cols : List String) rows, cols ≠ [] →
    ((rows.map (fun r => r.1)).Nodup) →
    dedupF ((meltL cols rows).map (fun r => r.provinsi)) = rows.map (fun r => r.1) := by
  intro cols
  cases cols with
  | nil => intro rows h _; exact absurd rfl h
  | cons c cs =>
    intro rows _ hnd
    have hblock : (meltL (c :: cs) rows).map (fun r => r.provinsi) =
        rows.map (fun r => r.1) ++
          (meltL cs (rows.map (fun r => (r.1, r.2.tail)))).map (fun r => r.provinsi) := by
      show ((rows.map (fun r => (⟨r.1, c, r.2.headD none⟩ : MRow))) ++
        meltL cs (rows.map (fun r => (r.1, r.2.tail)))).map (fun r => r.provinsi) = _
      rw [List.map_append, List.map_map]
      rfl
    rw [hblock, dedupF_append_of_subset, dedupF_eq_self_of_nodup hnd]
    intro x hx
    obtain ⟨r, hr, rfl⟩ := List.mem_map.mp hx
    have := provinsi_mem_meltL cs _ r hr
    simpa [List.map_map] using this

theorem rows_find : ∀ (rows : List (Cell × List (Option Int))) (p : Cell)
    (vals : List (Option Int)), (rows.map (fun r => r.1)).Nodup → (p, vals) ∈ rows →
    rows.find? (fun r => r.1 == p) = some (p, vals) := by
  intro rows
  induction rows with
  | nil => intro p vals _ hm; exact absurd hm (List.not_mem_nil _)
  | cons qw tl ih =>
    intro p vals hnd hm
    rw [List.map_cons, List.nodup_cons] at hnd
    by_cases hq : qw.1 = p
    · rw [List.find?_cons_of_pos tl (by simp [hq])]
      rcases List.mem_cons.mp hm with he | ht
      · rw [he]
      · exfalso
        apply hnd.1
        rw [hq]
        exact List.mem_map.mpr ⟨(p, vals), ht, rfl⟩
    · rw [List.find?_cons_of_neg tl (by simp [hq])]
      apply ih p vals hnd.2
      rcases List.mem_cons.mp hm with he | ht
      · exact absurd (congrArg Prod.fst he.symm) hq
      · exact ht

theorem meltL_lookup : ∀ (cols : List String) rows (p : Cell) (vals : List (Option Int)),
    cols.Nodup → ((rows.map (fun r => r.1)).Nodup) → (p, vals) ∈ rows →
    vals.length = cols.length →
    cols.map (fun d => ((meltL cols rows).find?
      (fun r => r.provinsi == p && r.tanggal == d)).bind (fun r => r.harga)) = vals := by
  intro cols
  induction cols with
  | nil =>
    intro rows p vals _ _ _ hlen
    rw [List.length_nil, List.length_eq_zero] at hlen
    rw [hlen]
    rfl
  | cons c cs ih =>
    intro rows p vals hcnd hrnd hm hlen
    rw [List.nodup_cons] at hcnd
    cases vals with
    | nil => simp at hlen
    | cons v vt =>
      rw [List.length_cons, List.length_cons] at hlen
      have hblocksplit : ∀ d : String, (meltL (c :: cs) rows).find?
          (fun r => r.provinsi == p && r.tanggal == d) =
        ((rows.map (fun r => (⟨r.1, c, r.2.headD none⟩ : MRow))).find?
          (fun r => r.provinsi == p && r.tanggal == d)).or
          ((meltL cs (rows.map (fun r => (r.1, r.2.tail)))).find?
            (fun r => r.provinsi == p && r.tanggal == d)) := by
        intro d
        exact List.find?_append
      rw [List.map_cons]
      congr 1
      · -- the head column c: found in the first block at row (p, v :: vt)
        rw [hblocksplit c, List.find?_map]
        have hpred : ((fun (r : MRow) => r.provinsi == p && r.tanggal == c) ∘
            (fun (r : Cell × List (Option Int)) => (⟨r.1, c, r.2.headD none⟩ : MRow))) =
            (fun (r : Cell × List (Option Int)) => r.1 == p && (c == c)) := rfl
        rw [hpred]
        have hpred2 : (fun (r : Cell × List (Option Int)) => r.1 == p && (c == c)) =
            (fun (r : Cell × List (Option Int)) => r.1 == p) := by
          funext r
          rw [beq_self_eq_true, Bool.and_true]
        rw [hpred2, rows_find rows p (v :: vt) hrnd hm]
        rfl
      · -- the tail columns: the first block never matches (its label is c)
        have hstep : ∀ d ∈ cs, ((meltL (c :: cs) rows).find?
            (fun r => r.provinsi == p && r.tanggal == d)).bind (fun r => r.harga) =
          ((meltL cs (rows.map (fun r => (r.1, r.2.tail)))).find?
            (fun r => r.provinsi == p && r.tanggal == d)).bind (fun r => r.harga) := by
          intro d hd
          have hcd : c ≠ d := fun e => hcnd.1 (e ▸ hd)
          have hnone : (rows.map (fun r => (⟨r.1, c, r.2.headD none⟩ : MRow))).find?
              (fun r => r.provinsi == p && r.tanggal == d) = none := by
            rw [List.find?_eq_none]
            intro x hx
            obtain ⟨r, _, rfl⟩ := List.mem_map.mp hx
            simp [hcd]
          rw [hblocksplit d, hnone, Option.none_or]
        rw [List.map_congr_left hstep]
        apply ih (rows.map (fun r => (r.1, r.2.tail))) p vt hcnd.2
        · simpa [List.map_map] using hrnd
        · exact List.mem_map.mpr ⟨(p, v :: vt), hm, rfl⟩
        · simpa using hlen

def wC6a : Wide := ⟨[], [(.str "A", [])]⟩

def wC6b : Wide := ⟨["d", "d"], [(.str "A", [some 1, some 2])]⟩

/-- C6 counterexample: as universally stated the round trip fails on
degenerate CleanedWideTables.  With one region and zero date columns
(wC6a, vacuously free of missing cells) the melt is empty and re-pivoting
loses the region; with duplicate date labels (wC6b, no missing cells) the
re-pivot collapses the two columns.  The row-count half still holds. -/
theorem C6_counterexample :
    pivotByRegion (melt wC6a) ≠ wC6a ∧
    (melt wC6b).length = 1 * 2 ∧
    pivotByRegion (melt wC6b) ≠ wC6b := by decide

/-- C6 (amended): for every CleanedWideTable with at least one region and at
least one date column, pairwise-distinct region keys and pairwise-distinct
date labels, rectangular rows, and no missing cells, the melt has exactly
R times D rows and re-pivoting reconstructs the table exactly. -/
theorem C6_amended_roundtrip (w : Wide)
    (hR : w.rows ≠ []) (hC : w.cols ≠ [])
    (hRnd : (w.rows.map (fun r => r.1)).Nodup) (hCnd : w.cols.Nodup)
    (hrect : ∀ r ∈ w.rows, r.2.length = w.cols.length)
    (hfull : ∀ r ∈ w.rows, ∀ v ∈ r.2, v.isSome = true) :
    (melt w).length = w.rows.length * w.cols.length ∧ pivotByRegion (melt w) = w := by
  obtain ⟨cols, rows⟩ := w
  constructor
  · show (meltL cols rows).length = rows.length * cols.length
    rw [meltL_length, Nat.mul_comm]
  · show pivotByRegion (meltL cols rows) = ⟨cols, rows⟩
    unfold pivotByRegion
    rw [dedupF_tanggal_meltL cols rows hR hCnd, dedupF_provinsi_meltL cols rows hC hRnd]
    congr 1
    rw [List.map_map]
    have hrow : ∀ r ∈ rows, ((fun p => (p, cols.map (fun d =>
        ((meltL cols rows).find? (fun x => x.provinsi == p && x.tanggal == d)).bind
          (fun x => x.harga)))) ∘ (fun r => r.1)) r = id r := by
      intro r hr
      show (r.1, cols.map _) = r
      have hlook := meltL_lookup cols rows r.1 r.2 hCnd hRnd
        (by rw [Prod.mk.eta]; exact hr) (hrect r hr)
      rw [hlook, Prod.mk.eta]
    rw [List.map_congr_left hrow, List.map_id]

def wC6w : Wide :=
  ⟨["01/01/2024", "02/01/2024"],
    [(.str "A", [some 1, some 2]), (.str "B", [some 3, some 4])]⟩

/-- C6 witness: the amended round trip evaluated on a concrete 2-by-2 table. -/
theorem C6_amended_roundtrip_witness :
    (melt wC6w).length = wC6w.rows.length * wC6w.cols.length ∧
      pivotByRegion (melt wC6w) = wC6w :=
  C6_amended_roundtrip wC6w (by decide) (by decide) (by decide) (by decide)
    (by decide) (by decide)
